import Mathlib

/-!
Verification of the tram-monitor frontend (tram_monitor_ekb).

The TypeScript sources are shallowly embedded here:
* `src/frontend/src/map/route-layer.ts` (a.k.a. `vehicle-layer.ts`): route
  geometry (`buildRouteGeometry`, `pointAtProgress`, `bearingAtProgress`,
  `absAngleDiffDeg`, `inferTravelDir`, `routeColor`) and the marker map of
  `VehicleLayer.update`.
* `src/frontend/src/services/state.ts`: the reactive `Store`.
* `src/frontend/src/main.ts`: the snapshot-freshness gate of the WebSocket
  subscription handler.
* `src/frontend/src/services/ws-client.ts`: the read-only WebSocket client,
  modelled as a transition system emitting socket operations.

JS `number` is modelled by `ℝ` (an exact-real idealization of IEEE doubles);
JS `Map`/iteration order by association lists; JS `Set<string>` by
`Finset String`.
-/

namespace Tram

/-! ### Route geometry (route-layer.ts lines 70-117 of the embedded
vehicle-layer module)

`buildRouteGeometry` computes, per segment,
`dlat = Δlat * M_PER_DEG_LAT`, `dlon = Δlon * M_PER_DEG_LAT * cosLat`,
and accumulates `sqrt (dlat*dlat + dlon*dlon)`. -/

/-- Length in meters of one polyline segment, as computed inside the loop of
`buildRouteGeometry` (`M_PER_DEG_LAT = 111320`). -/
noncomputable def segmentLength (cosLat : ℝ) (p q : ℝ × ℝ) : ℝ :=
  Real.sqrt (((q.1 - p.1) * 111320) * ((q.1 - p.1) * 111320) +
    ((q.2 - p.2) * 111320 * cosLat) * ((q.2 - p.2) * 111320 * cosLat))

/-- The loop of `buildRouteGeometry`: given the previous vertex and the running
total, returns the list of cumulative distances at the remaining vertices
together with the final running total. -/
noncomputable def cumAux (cosLat : ℝ) : ℝ × ℝ → ℝ → List (ℝ × ℝ) → List ℝ × ℝ
  | _, total, [] => ([], total)
  | prev, total, p :: ps =>
    let t := total + segmentLength cosLat prev p
    let r := cumAux cosLat p t ps
    (t :: r.1, r.2)

/-- The `RouteGeometry` record of route-layer.ts: polyline vertices, cumulative
distance at each vertex, and total length. -/
structure RouteGeometry where
  points : List (ℝ × ℝ)
  cumDist : List ℝ
  totalDist : ℝ

/-- The `DEG2RAD` constant of route-layer.ts. -/
noncomputable def deg2rad : ℝ := Real.pi / 180

/-- `buildRouteGeometry(coords)`: `cosLat` is taken at the first vertex, the
cumulative table starts at `0` and accumulates segment lengths.  (On the empty
list, where the JS code would read `undefined`, the first vertex defaults to
`(0, 0)`; all theorems below assume at least two vertices, as does the sole
caller `loadRoutes`.) -/
noncomputable def buildRouteGeometry (coords : List (ℝ × ℝ)) : RouteGeometry :=
  let p0 := coords.headD (0, 0)
  let cosLat := Real.cos (p0.1 * deg2rad)
  let r := cumAux cosLat p0 0 coords.tail
  { points := coords, cumDist := 0 :: r.1, totalDist := r.2 }

theorem lo_lt_mid {lo hi : ℕ} (h : lo < hi - 1) : lo < (lo + hi) / 2 := by
  omega

theorem mid_lt_hi {lo hi : ℕ} (h : lo < hi - 1) : (lo + hi) / 2 < hi := by
  omega

/-- The binary-search loop of `pointAtProgress`: narrows `[lo, hi]` until
`lo ≥ hi - 1`, keeping `cumDist[lo] ≤ targetDist` whenever it moves `lo`. -/
noncomputable def bsearch (cum : List ℝ) (target : ℝ) (lo hi : ℕ) : ℕ × ℕ :=
  if h : lo < hi - 1 then
    let mid := (lo + hi) / 2
    if cum.getD mid 0 ≤ target then bsearch cum target mid hi
    else bsearch cum target lo mid
  else (lo, hi)
termination_by hi - lo
decreasing_by
  · have h1 := lo_lt_mid h
    have h2 := mid_lt_hi h
    omega
  · have h1 := lo_lt_mid h
    have h2 := mid_lt_hi h
    omega

/-- `pointAtProgress(geom, progress)`: clamps progress to `[0, 1]`, finds the
containing segment by binary search, then interpolates linearly inside it. -/
noncomputable def pointAtProgress (geom : RouteGeometry) (progress : ℝ) : ℝ × ℝ :=
  let p := max 0 (min 1 progress)
  let targetDist := p * geom.totalDist
  let lh := bsearch geom.cumDist targetDist 0 (geom.cumDist.length - 1)
  let lo := lh.1
  let hi := lh.2
  let segStart := geom.cumDist.getD lo 0
  let segEnd := geom.cumDist.getD hi 0
  let segLen := segEnd - segStart
  let t := if 0 < segLen then (targetDist - segStart) / segLen else 0
  let a := geom.points.getD lo (0, 0)
  let b := geom.points.getD hi (0, 0)
  (a.1 + (b.1 - a.1) * t, a.2 + (b.2 - a.2) * t)

/-! ### Lemmas about the cumulative-distance table -/

theorem segmentLength_nonneg (c : ℝ) (p q : ℝ × ℝ) : 0 ≤ segmentLength c p q :=
  Real.sqrt_nonneg _

theorem cumAux_length (c : ℝ) :
    ∀ (ps : List (ℝ × ℝ)) (prev : ℝ × ℝ) (t : ℝ),
      ((cumAux c prev t ps).1).length = ps.length := by
  intro ps
  induction ps with
  | nil => intro prev t; rfl
  | cons p ps ih => intro prev t; simp [cumAux, ih]

theorem cumAux_chain (c : ℝ) :
    ∀ (ps : List (ℝ × ℝ)) (prev : ℝ × ℝ) (t : ℝ),
      List.Chain' (· ≤ ·) (t :: (cumAux c prev t ps).1) := by
  intro ps
  induction ps with
  | nil => intro prev t; simp [cumAux]
  | cons p ps ih =>
    intro prev t
    have hseg := segmentLength_nonneg c prev p
    have htail := ih p (t + segmentLength c prev p)
    simp only [cumAux]
    exact List.Chain'.cons (by linarith) htail

theorem cumAux_lastD (c : ℝ) :
    ∀ (ps : List (ℝ × ℝ)) (prev : ℝ × ℝ) (t : ℝ),
      (t :: (cumAux c prev t ps).1).getLastD 0 = (cumAux c prev t ps).2 := by
  intro ps
  induction ps with
  | nil => intro prev t; rfl
  | cons p ps ih =>
    intro prev t
    have h := ih p (t + segmentLength c prev p)
    simpa [cumAux, List.getLastD_cons] using h

/-- C1.  For every polyline with at least two points, the geometry built by
`buildRouteGeometry` has a cumulative-distance table with one entry per
polyline vertex, first entry `0`, monotone non-decreasing entries, and last
entry equal to `totalDist`. -/
theorem c1_cumdist_invariants (coords : List (ℝ × ℝ)) (h : 2 ≤ coords.length) :
    (buildRouteGeometry coords).cumDist.length = coords.length ∧
    (buildRouteGeometry coords).cumDist.getD 0 0 = 0 ∧
    List.Sorted (· ≤ ·) (buildRouteGeometry coords).cumDist ∧
    (buildRouteGeometry coords).cumDist.getLastD 0 =
      (buildRouteGeometry coords).totalDist := by
  set p0 := coords.headD (0, 0) with hp0
  set c := Real.cos (p0.1 * deg2rad) with hc
  refine ⟨?_, ?_, ?_, ?_⟩
  · simp only [buildRouteGeometry]
    rw [List.length_cons, cumAux_length]
    cases coords with
    | nil => simp at h
    | cons a l => simp
  · simp [buildRouteGeometry]
  · simp only [buildRouteGeometry]
    have := cumAux_chain c coords.tail p0 0
    rw [List.chain'_iff_pairwise] at this
    exact this
  · simp only [buildRouteGeometry]
    exact cumAux_lastD c coords.tail p0 0

/-- C2.  `pointAtProgress` clamps its progress argument: for a geometry built
from at least two points and any real `p`, the result at `p` equals the result
at `max 0 (min 1 p)`. -/
theorem c2_progress_clamped (coords : List (ℝ × ℝ)) (h : 2 ≤ coords.length)
    (p : ℝ) :
    pointAtProgress (buildRouteGeometry coords) p =
      pointAtProgress (buildRouteGeometry coords) (max 0 (min 1 p)) := by
  have hclamp : max 0 (min 1 (max 0 (min 1 p))) = max 0 (min 1 p) := by
    have h0 : (0 : ℝ) ≤ max 0 (min 1 p) := le_max_left _ _
    have h1 : max 0 (min 1 p) ≤ 1 :=
      max_le (by norm_num) (min_le_left _ _)
    rw [min_eq_right h1, max_eq_right h0]
  simp only [pointAtProgress, hclamp]

/-- Witness for C2 at the polyline `[(0,0), (0,1)]` and progress `2`. -/
theorem c2_progress_clamped_witness :
    2 ≤ ([((0 : ℝ), (0 : ℝ)), ((0 : ℝ), (1 : ℝ))] : List (ℝ × ℝ)).length ∧
    pointAtProgress (buildRouteGeometry [((0 : ℝ), (0 : ℝ)), ((0 : ℝ), (1 : ℝ))]) 2 =
      pointAtProgress (buildRouteGeometry [((0 : ℝ), (0 : ℝ)), ((0 : ℝ), (1 : ℝ))])
        (max 0 (min 1 2)) :=
  ⟨by simp, c2_progress_clamped [((0 : ℝ), (0 : ℝ)), ((0 : ℝ), (1 : ℝ))] (by simp) 2⟩

/-! ### Bearings and travel direction (route-layer.ts lines 109-165 of the
embedded vehicle-layer module) -/

/-- JS `x % y` for the non-negative dividends used in this module (equal to
`x - y * floor (x / y)` there). -/
noncomputable def jsFmod (x y : ℝ) : ℝ := x - y * ⌊x / y⌋

/-- JS `Math.atan2(y, x)`, i.e. the argument of the complex number `x + y*I`
(range `(-π, π]`, `atan2 0 0 = 0`). -/
noncomputable def jsAtan2 (y x : ℝ) : ℝ := Complex.arg ⟨x, y⟩

/-- `bearingAtProgress(geom, progress)`: bearing of the chord between the
points slightly before and slightly after `progress`, in degrees normalized to
`[0, 360)`. -/
noncomputable def bearingAtProgress (geom : RouteGeometry) (progress : ℝ) : ℝ :=
  let eps : ℝ := 0.001
  let p1 := pointAtProgress geom (max 0 (progress - eps))
  let p2 := pointAtProgress geom (min 1 (progress + eps))
  let cosLat := Real.cos (p1.1 * deg2rad)
  let dx := (p2.2 - p1.2) * cosLat
  let dy := p2.1 - p1.1
  jsFmod (jsAtan2 dx dy * 180 / Real.pi + 360) 360

/-- `absAngleDiffDeg(a, b)`: shortest angular difference, in `[0, 180]`. -/
noncomputable def absAngleDiffDeg (a b : ℝ) : ℝ :=
  let diff := jsFmod |a - b| 360
  if 180 < diff then 360 - diff else diff

/-- `inferTravelDir(geom, prevProgress, targetProgress, targetCourse)`. -/
noncomputable def inferTravelDir (geom : RouteGeometry) (prevProgress targetProgress
    targetCourse : ℝ) : ℝ :=
  if 0.0001 < |targetProgress - prevProgress| then
    if prevProgress ≤ targetProgress then 1 else -1
  else
    let routeBearing := bearingAtProgress geom targetProgress
    if 90 < absAngleDiffDeg targetCourse routeBearing then -1 else 1

theorem jsFmod_nonneg {x : ℝ} (y : ℝ) (hy : 0 < y) :
    0 ≤ jsFmod x y := by
  have hle : (⌊x / y⌋ : ℝ) ≤ x / y := Int.floor_le _
  have : y * (⌊x / y⌋ : ℝ) ≤ y * (x / y) := by
    exact mul_le_mul_of_nonneg_left hle (le_of_lt hy)
  have hxy : y * (x / y) = x := by
    field_simp
  unfold jsFmod
  linarith [this, hxy]

theorem jsFmod_lt {x : ℝ} (y : ℝ) (hy : 0 < y) : jsFmod x y < y := by
  have h : x / y - 1 < (⌊x / y⌋ : ℝ) := Int.sub_one_lt_floor (x / y)
  have : y * (x / y - 1) < y * (⌊x / y⌋ : ℝ) :=
    mul_lt_mul_of_pos_left h hy
  have hxy : y * (x / y) = x := by
    field_simp
  unfold jsFmod
  nlinarith [this, hxy]

/-- `absAngleDiffDeg` always lands in `[0, 180]`. -/
theorem absAngleDiffDeg_mem (a b : ℝ) :
    0 ≤ absAngleDiffDeg a b ∧ absAngleDiffDeg a b ≤ 180 := by
  unfold absAngleDiffDeg
  have h0 : (0 : ℝ) ≤ |a - b| := abs_nonneg _
  have hnn := jsFmod_nonneg (x := |a - b|) 360 (by norm_num)
  have hlt := jsFmod_lt (x := |a - b|) 360 (by norm_num)
  by_cases h : 180 < jsFmod |a - b| 360
  · rw [if_pos h]
    constructor <;> linarith
  · rw [if_neg h]
    push_neg at h
    exact ⟨hnn, h⟩

/-- C5.  `inferTravelDir`: when the progress delta exceeds `0.0001` the sign of
the delta decides the direction; otherwise the course is compared with the
route bearing at the target progress, and the result is `-1` exactly when the
shortest angular difference (which always lies in `[0, 180]`) exceeds `90`. -/
theorem c5_infer_travel_dir (geom : RouteGeometry) (prevP targetP course : ℝ) :
    (0 ≤ absAngleDiffDeg course (bearingAtProgress geom targetP) ∧
      absAngleDiffDeg course (bearingAtProgress geom targetP) ≤ 180) ∧
    (0.0001 < |targetP - prevP| →
      inferTravelDir geom prevP targetP course =
        (if prevP ≤ targetP then 1 else -1)) ∧
    (|targetP - prevP| ≤ 0.0001 →
      ((inferTravelDir geom prevP targetP course = -1 ↔
          90 < absAngleDiffDeg course (bearingAtProgress geom targetP)) ∧
        (inferTravelDir geom prevP targetP course = 1 ↔
          absAngleDiffDeg course (bearingAtProgress geom targetP) ≤ 90))) := by
  refine ⟨absAngleDiffDeg_mem _ _, ?_, ?_⟩
  · intro h
    rw [inferTravelDir, if_pos h]
  · intro h
    rw [inferTravelDir, if_neg (by push_neg; exact h)]
    by_cases hb : 90 < absAngleDiffDeg course (bearingAtProgress geom targetP)
    · rw [if_pos hb]
      constructor
      · exact ⟨fun _ => hb, fun _ => rfl⟩
      · constructor
        · intro h1
          norm_num at h1
        · intro h1
          linarith
    · rw [if_neg hb]
      push_neg at hb
      constructor
      · constructor
        · intro h1
          norm_num at h1
        · intro h1
          linarith
      · exact ⟨fun _ => hb, fun _ => rfl⟩

/-- Witness for C5: a concrete one-segment geometry with a large progress
delta, the inner hypothesis discharged numerically. -/
theorem c5_infer_travel_dir_witness :
    0.0001 < |(1 : ℝ) - 0| ∧
    inferTravelDir (buildRouteGeometry [((0 : ℝ), (0 : ℝ)), ((0 : ℝ), (1 : ℝ))]) 0 1 0 =
      (if (0 : ℝ) ≤ 1 then 1 else -1) :=
  ⟨by norm_num,
    (c5_infer_travel_dir (buildRouteGeometry [((0 : ℝ), (0 : ℝ)), ((0 : ℝ), (1 : ℝ))])
      0 1 0).2.1 (by norm_num)⟩

/-! ### Endpoint behaviour of `pointAtProgress` (claim C4) -/

theorem cumAux_ge (c : ℝ) :
    ∀ (ps : List (ℝ × ℝ)) (prev : ℝ × ℝ) (t : ℝ),
      ∀ x ∈ (cumAux c prev t ps).1, t ≤ x := by
  intro ps
  induction ps with
  | nil => intro prev t x hx; simp [cumAux] at hx
  | cons p ps ih =>
    intro prev t x hx
    have hs := segmentLength_nonneg c prev p
    simp only [cumAux, List.mem_cons] at hx
    rcases hx with rfl | hx
    · linarith
    · have := ih p (t + segmentLength c prev p) x hx
      linarith

theorem cumAux_getD_succ (c : ℝ) :
    ∀ (ps : List (ℝ × ℝ)) (prev : ℝ × ℝ) (t : ℝ) (i : ℕ), i < ps.length →
      (t :: (cumAux c prev t ps).1).getD (i + 1) 0 =
        (t :: (cumAux c prev t ps).1).getD i 0 +
          segmentLength c ((prev :: ps).getD i (0, 0))
            ((prev :: ps).getD (i + 1) (0, 0)) := by
  intro ps
  induction ps with
  | nil => intro prev t i hi; simp at hi
  | cons p ps ih =>
    intro prev t i hi
    cases i with
    | zero => simp [cumAux]
    | succ j =>
      have hj : j < ps.length := by simpa using hi
      have h := ih p (t + segmentLength c prev p) j hj
      simpa [cumAux, List.getD_cons_succ] using h

/-- In the real-number model, a zero-length segment has equal endpoints as
soon as the latitude scale factor `cosLat` is non-zero. -/
theorem segmentLength_eq_zero {c : ℝ} (hc : c ≠ 0) {p q : ℝ × ℝ}
    (h : segmentLength c p q = 0) : q = p := by
  unfold segmentLength at h
  rw [Real.sqrt_eq_zero'] at h
  have hA : (q.1 - p.1) * 111320 = 0 := by
    nlinarith [mul_self_nonneg ((q.1 - p.1) * 111320),
      mul_self_nonneg ((q.2 - p.2) * 111320 * c)]
  have hB : (q.2 - p.2) * 111320 * c = 0 := by
    nlinarith [mul_self_nonneg ((q.1 - p.1) * 111320),
      mul_self_nonneg ((q.2 - p.2) * 111320 * c)]
  have h1 : q.1 = p.1 := by
    rcases mul_eq_zero.mp hA with h | h
    · linarith
    · norm_num at h
  have h2 : q.2 = p.2 := by
    rcases mul_eq_zero.mp hB with h | h
    · rcases mul_eq_zero.mp h with h | h
      · linarith
      · norm_num at h
    · exact absurd h hc
  exact Prod.ext h1 h2

theorem cumAux_zero_run_eq {c : ℝ} (hc : c ≠ 0) :
    ∀ (ps : List (ℝ × ℝ)) (prev : ℝ × ℝ) (t : ℝ) (j : ℕ), j < ps.length →
      ((cumAux c prev t ps).1).getD j 0 ≤ t →
      (prev :: ps).getD (j + 1) (0, 0) = prev := by
  intro ps
  induction ps with
  | nil => intro prev t j hj _; simp at hj
  | cons p ps ih =>
    intro prev t j hj hle
    have hs := segmentLength_nonneg c prev p
    cases j with
    | zero =>
      simp only [cumAux, List.getD_cons_zero] at hle
      have hzero : segmentLength c prev p = 0 := by linarith
      have hpq := segmentLength_eq_zero hc hzero
      simp [List.getD_cons_succ, List.getD_cons_zero, hpq]
    | succ j =>
      simp only [cumAux, List.getD_cons_succ] at hle
      have hj2 : j < ps.length := by simpa using hj
      have hlen : j < ((cumAux c p (t + segmentLength c prev p) ps).1).length := by
        rw [cumAux_length]; exact hj2
      have hmem : ((cumAux c p (t + segmentLength c prev p) ps).1).getD j 0 ∈
          (cumAux c p (t + segmentLength c prev p) ps).1 := by
        rw [List.getD_eq_getElem _ _ hlen]
        exact List.getElem_mem _
      have hge := cumAux_ge c ps p (t + segmentLength c prev p) _ hmem
      have hzero : segmentLength c prev p = 0 := by linarith
      have hpq := segmentLength_eq_zero hc hzero
      rw [hzero, add_zero] at hle
      have hres := ih p t j hj2 hle
      simp only [List.getD_cons_succ]
      simp only [List.getD_cons_succ] at hres
      rw [hres, hpq]

theorem bsearch_min (cum : List ℝ) (target : ℝ) :
    ∀ (d lo hi : ℕ), hi - lo ≤ d → lo < hi →
      lo ≤ (bsearch cum target lo hi).1 ∧
      (bsearch cum target lo hi).1 < (bsearch cum target lo hi).2 ∧
      (bsearch cum target lo hi).2 ≤ hi := by
  intro d
  induction d with
  | zero => intro lo hi hd hlt; exact absurd hlt (by omega)
  | succ d ih =>
    intro lo hi hd hlt
    rw [bsearch]
    by_cases h : lo < hi - 1
    · rw [dif_pos h]
      have h1 := lo_lt_mid h
      have h2 := mid_lt_hi h
      by_cases hcmp : cum.getD ((lo + hi) / 2) 0 ≤ target
      · rw [if_pos hcmp]
        have hr := ih ((lo + hi) / 2) hi (by omega) h2
        exact ⟨le_trans (le_of_lt h1) hr.1, hr.2.1, hr.2.2⟩
      · rw [if_neg hcmp]
        have hr := ih lo ((lo + hi) / 2) (by omega) h1
        exact ⟨hr.1, hr.2.1, le_trans hr.2.2 (le_of_lt h2)⟩
    · rw [dif_neg h]
      exact ⟨le_refl lo, hlt, le_refl hi⟩

theorem bsearch_all_le (cum : List ℝ) (target : ℝ)
    (H : ∀ i, cum.getD i 0 ≤ target) :
    ∀ (d lo hi : ℕ), hi - lo ≤ d → lo < hi →
      bsearch cum target lo hi = (hi - 1, hi) := by
  intro d
  induction d with
  | zero => intro lo hi hd hlt; exact absurd hlt (by omega)
  | succ d ih =>
    intro lo hi hd hlt
    rw [bsearch]
    by_cases h : lo < hi - 1
    · rw [dif_pos h]
      have h2 := mid_lt_hi h
      rw [if_pos (H ((lo + hi) / 2))]
      exact ih ((lo + hi) / 2) hi (by have := lo_lt_mid h; omega) h2
    · rw [dif_neg h]
      have : lo = hi - 1 := by omega
      rw [this]

theorem bsearch_lo_le (cum : List ℝ) (target : ℝ) :
    ∀ (d lo hi : ℕ), hi - lo ≤ d → cum.getD lo 0 ≤ target →
      cum.getD (bsearch cum target lo hi).1 0 ≤ target := by
  intro d
  induction d with
  | zero =>
    intro lo hi hd hlo
    rw [bsearch]
    rw [dif_neg (by omega : ¬ lo < hi - 1)]
    exact hlo
  | succ d ih =>
    intro lo hi hd hlo
    rw [bsearch]
    by_cases h : lo < hi - 1
    · rw [dif_pos h]
      have h1 := lo_lt_mid h
      have h2 := mid_lt_hi h
      by_cases hcmp : cum.getD ((lo + hi) / 2) 0 ≤ target
      · rw [if_pos hcmp]
        exact ih ((lo + hi) / 2) hi (by omega) hcmp
      · rw [if_neg hcmp]
        exact ih lo ((lo + hi) / 2) (by omega) hlo
    · rw [dif_neg h]
      exact hlo

theorem getLastD_eq_getD {α : Type _} :
    ∀ (l : List α) (d₁ d₂ : α), l ≠ [] → l.getLastD d₁ = l.getD (l.length - 1) d₂ := by
  intro l
  induction l with
  | nil => intro d₁ d₂ h; exact absurd rfl h
  | cons a t ih =>
    intro d₁ d₂ _
    cases t with
    | nil => rfl
    | cons b u =>
      rw [List.getLastD_cons]
      have h := ih a d₂ (by simp)
      simpa [List.getD_cons_succ, List.length_cons, Nat.add_sub_cancel] using h

theorem pairwise_getD_mono {l : List ℝ} (hp : List.Pairwise (· ≤ ·) l) {i j : ℕ}
    (hij : i ≤ j) (hj : j < l.length) : l.getD i 0 ≤ l.getD j 0 := by
  rcases eq_or_lt_of_le hij with rfl | hlt
  · exact le_refl _
  · rw [List.getD_eq_getElem _ _ (lt_trans hlt hj), List.getD_eq_getElem _ _ hj]
    exact List.pairwise_iff_getElem.mp hp i j (lt_trans hlt hj) hj hlt

/-- C4.  For every geometry built from at least two points, `pointAtProgress`
at progress `0` returns the first polyline vertex and at progress `1` the last
polyline vertex — also in the presence of zero-length segments.  The extra
hypothesis `cos (lat₀ · π/180) ≠ 0` discharges an artifact of the exact-real
model: only at a latitude that is an exact odd multiple of 90° does the real
cosine vanish (collapsing longitudes to zero length), which floating-point
`Math.cos` never produces. -/
theorem c4_point_at_progress_endpoints (coords : List (ℝ × ℝ))
    (h : 2 ≤ coords.length)
    (hc : Real.cos ((coords.headD (0, 0)).1 * deg2rad) ≠ 0) :
    pointAtProgress (buildRouteGeometry coords) 0 = coords.headD (0, 0) ∧
    pointAtProgress (buildRouteGeometry coords) 1 = coords.getLastD (0, 0) := by
  obtain ⟨a, rest, rfl⟩ : ∃ a rest, coords = a :: rest := by
    cases coords with
    | nil => simp at h
    | cons a rest => exact ⟨a, rest, rfl⟩
  rw [List.headD_cons] at hc
  set c := Real.cos (a.1 * deg2rad) with hcdef
  set l := (cumAux c a 0 rest).1 with hldef
  set total := (cumAux c a 0 rest).2 with htotaldef
  have hgeom : buildRouteGeometry (a :: rest) =
      { points := a :: rest, cumDist := 0 :: l, totalDist := total } := by
    simp [buildRouteGeometry, hldef, htotaldef, hcdef]
  have hm : 1 ≤ rest.length := by
    simpa using h
  have hlen : l.length = rest.length := by
    rw [hldef, cumAux_length]
  have hchain : List.Chain' (· ≤ ·) (0 :: l) := cumAux_chain c rest a 0
  have hpair : List.Pairwise (· ≤ ·) (0 :: l) := List.chain'_iff_pairwise.mp hchain
  have hlast : (0 :: l).getLastD 0 = total := cumAux_lastD c rest a 0
  have hcumlen : (0 :: l).length = rest.length + 1 := by
    simp [hlen]
  have hlastD : (0 :: l).getD rest.length 0 = total := by
    rw [← hlast, getLastD_eq_getD (0 :: l) 0 0 (by simp)]
    simp [hcumlen]
  have hall : ∀ i, (0 :: l).getD i 0 ≤ total := by
    intro i
    by_cases hi : i < (0 :: l).length
    · calc (0 :: l).getD i 0 ≤ (0 :: l).getD rest.length 0 := by
            apply pairwise_getD_mono hpair (by omega)
            omega
        _ = total := hlastD
    · rw [List.getD_eq_default _ _ (by omega)]
      calc (0 : ℝ) = (0 :: l).getD 0 0 := by simp
        _ ≤ (0 :: l).getD rest.length 0 := by
            apply pairwise_getD_mono hpair (by omega)
            omega
        _ = total := hlastD
  constructor
  · -- progress 0 returns the first vertex
    rw [pointAtProgress, hgeom]
    simp only
    have hclamp : max 0 (min 1 (0 : ℝ)) = 0 := by norm_num
    rw [hclamp, zero_mul]
    have hblen : (0 :: l).length - 1 = rest.length := by
      simp [hcumlen]
    rw [hblen]
    have hres := bsearch_min (0 :: l) 0 rest.length 0 rest.length (by omega) (by omega)
    have hlo0 : (0 :: l).getD 0 0 ≤ 0 := by simp
    have hloval := bsearch_lo_le (0 :: l) 0 rest.length 0 rest.length (by omega) hlo0
    set res := bsearch (0 :: l) 0 0 rest.length with hresdef
    have hnonneg : 0 ≤ (0 :: l).getD res.1 0 := by
      calc (0 : ℝ) = (0 :: l).getD 0 0 := by simp
        _ ≤ (0 :: l).getD res.1 0 := by
            apply pairwise_getD_mono hpair (by omega)
            omega
    have hzero : (0 :: l).getD res.1 0 = 0 := le_antisymm hloval hnonneg
    rw [hzero, sub_zero]
    have ht : (if 0 < (0 :: l).getD res.2 0 then
        ((0 : ℝ) - 0) / (0 :: l).getD res.2 0 else 0) = 0 := by
      split
      · simp
      · rfl
    rw [ht, mul_zero, mul_zero, add_zero, add_zero]
    have hpoint : (a :: rest).getD res.1 (0, 0) = a := by
      rcases Nat.eq_zero_or_pos res.1 with h0 | hpos
      · rw [h0]; rfl
      · obtain ⟨j, hj⟩ : ∃ j, res.1 = j + 1 := ⟨res.1 - 1, by omega⟩
        rw [hj]
        apply cumAux_zero_run_eq hc rest a 0 j (by omega)
        have : (0 :: l).getD (j + 1) 0 = l.getD j 0 := List.getD_cons_succ
        rw [hj, this] at hzero
        rw [hzero]
    rw [hpoint]
    simp
  · -- progress 1 returns the last vertex
    rw [pointAtProgress, hgeom]
    simp only
    have hclamp : max 0 (min 1 (1 : ℝ)) = 1 := by norm_num
    rw [hclamp, one_mul]
    have hblen : (0 :: l).length - 1 = rest.length := by
      simp [hcumlen]
    rw [hblen]
    rw [bsearch_all_le (0 :: l) total hall rest.length 0 rest.length (by omega) (by omega)]
    simp only
    rw [hlastD]
    have hlastpoint : (a :: rest).getD rest.length (0, 0) = (a :: rest).getLastD (0, 0) := by
      rw [getLastD_eq_getD (a :: rest) (0, 0) (0, 0) (by simp)]
      simp
    by_cases hpos : 0 < total - (0 :: l).getD (rest.length - 1) 0
    · rw [if_pos hpos]
      rw [div_self (ne_of_gt hpos)]
      rw [← hlastpoint]
      simp
    · rw [if_neg hpos]
      have hge : (0 :: l).getD (rest.length - 1) 0 ≤ total := by
        rw [← hlastD]
        apply pairwise_getD_mono hpair (by omega)
        omega
      have heq : (0 :: l).getD rest.length 0 = (0 :: l).getD (rest.length - 1) 0 := by
        rw [hlastD]; linarith
      have hsucc := cumAux_getD_succ c rest a 0 (rest.length - 1) (by omega)
      rw [show rest.length - 1 + 1 = rest.length from by omega] at hsucc
      rw [← hldef] at hsucc
      have hseg0 : segmentLength c ((a :: rest).getD (rest.length - 1) (0, 0))
          ((a :: rest).getD rest.length (0, 0)) = 0 := by
        rw [heq] at hsucc
        linarith
      have hpteq := segmentLength_eq_zero hc hseg0
      rw [← hlastpoint, ← hpteq]
      simp

theorem c1_cumdist_invariants_witness :
    2 ≤ ([((0 : ℝ), (0 : ℝ)), ((0 : ℝ), (1 : ℝ))] : List (ℝ × ℝ)).length ∧
    (buildRouteGeometry [((0 : ℝ), (0 : ℝ)), ((0 : ℝ), (1 : ℝ))]).cumDist.length =
      ([((0 : ℝ), (0 : ℝ)), ((0 : ℝ), (1 : ℝ))] : List (ℝ × ℝ)).length ∧
    (buildRouteGeometry [((0 : ℝ), (0 : ℝ)), ((0 : ℝ), (1 : ℝ))]).cumDist.getD 0 0 = 0 ∧
    List.Sorted (· ≤ ·)
      (buildRouteGeometry [((0 : ℝ), (0 : ℝ)), ((0 : ℝ), (1 : ℝ))]).cumDist ∧
    (buildRouteGeometry [((0 : ℝ), (0 : ℝ)), ((0 : ℝ), (1 : ℝ))]).cumDist.getLastD 0 =
      (buildRouteGeometry [((0 : ℝ), (0 : ℝ)), ((0 : ℝ), (1 : ℝ))]).totalDist := by
  have h : 2 ≤ ([((0 : ℝ), (0 : ℝ)), ((0 : ℝ), (1 : ℝ))] : List (ℝ × ℝ)).length := by
    simp
  have := c1_cumdist_invariants [((0 : ℝ), (0 : ℝ)), ((0 : ℝ), (1 : ℝ))] h
  exact ⟨h, this.1, this.2.1, this.2.2.1, this.2.2.2⟩

/-- Witness for C4 at the concrete two-point polyline `[(0,0), (0,1)]` (whose
first-vertex latitude `0` has non-zero cosine). -/
theorem c4_point_at_progress_endpoints_witness :
    2 ≤ ([((0 : ℝ), (0 : ℝ)), ((0 : ℝ), (1 : ℝ))] : List (ℝ × ℝ)).length ∧
    Real.cos ((([((0 : ℝ), (0 : ℝ)), ((0 : ℝ), (1 : ℝ))] : List (ℝ × ℝ)).headD (0, 0)).1 *
      deg2rad) ≠ 0 ∧
    pointAtProgress (buildRouteGeometry [((0 : ℝ), (0 : ℝ)), ((0 : ℝ), (1 : ℝ))]) 0 =
      ([((0 : ℝ), (0 : ℝ)), ((0 : ℝ), (1 : ℝ))] : List (ℝ × ℝ)).headD (0, 0) ∧
    pointAtProgress (buildRouteGeometry [((0 : ℝ), (0 : ℝ)), ((0 : ℝ), (1 : ℝ))]) 1 =
      ([((0 : ℝ), (0 : ℝ)), ((0 : ℝ), (1 : ℝ))] : List (ℝ × ℝ)).getLastD (0, 0) := by
  have h1 : 2 ≤ ([((0 : ℝ), (0 : ℝ)), ((0 : ℝ), (1 : ℝ))] : List (ℝ × ℝ)).length := by
    simp
  have h2 : Real.cos ((([((0 : ℝ), (0 : ℝ)), ((0 : ℝ), (1 : ℝ))] :
      List (ℝ × ℝ)).headD (0, 0)).1 * deg2rad) ≠ 0 := by
    simp
  have h := c4_point_at_progress_endpoints [((0 : ℝ), (0 : ℝ)), ((0 : ℝ), (1 : ℝ))] h1 h2
  exact ⟨h1, h2, h.1, h.2⟩

/-! ### `routeColor` (route-layer.ts lines 77-87 of the embedded vehicle-layer
module)

The JS semantics modelled exactly: `parseInt(s, 10)` (leading whitespace, an
optional sign, then the longest digit prefix; `NaN` when there is none), the
32-bit-wrapping `hash << 5`, JS truncated `%` (which keeps the dividend's
sign), and `COLORS[i]`, which yields `undefined` — here `none` — for a
negative index. -/

/-- The 24-entry `COLORS` palette of route-layer.ts. -/
def COLORS : List String :=
  ["#e6194b", "#3cb44b", "#4363d8", "#f58231", "#911eb4",
   "#42d4f4", "#f032e6", "#bfef45", "#fabed4", "#469990",
   "#dcbeff", "#9A6324", "#800000", "#aaffc3", "#808000",
   "#000075", "#a9a9a9", "#ffe119", "#ffd8b1", "#00CED1",
   "#ff6eb4", "#ff4500", "#1abc9c", "#8b0000"]

/-- Leading decimal digits of a character list. -/
def leadingDigits : List Char → List Char
  | [] => []
  | ch :: rest => if ch.isDigit then ch :: leadingDigits rest else []

/-- Numeric value of a non-empty digit run; `none` when there is no digit. -/
def jsParseNat (cs : List Char) : Option ℕ :=
  match leadingDigits cs with
  | [] => none
  | ds => some (ds.foldl (fun acc ch => acc * 10 + (ch.toNat - 48)) 0)

/-- Drop leading whitespace, as `parseInt` does. -/
def skipWs : List Char → List Char
  | [] => []
  | ch :: rest => if ch.isWhitespace then skipWs rest else ch :: rest

/-- JS `parseInt(s, 10)`: `none` models `NaN`. -/
def jsParseInt (s : String) : Option Int :=
  match skipWs s.data with
  | '-' :: rest => (jsParseNat rest).map (fun n => -(n : Int))
  | '+' :: rest => (jsParseNat rest).map (fun n => (n : Int))
  | rest => (jsParseNat rest).map (fun n => (n : Int))

/-- Wrap an integer to the signed 32-bit range, as `ToInt32` does. -/
def toInt32 (n : Int) : Int := (n + 2 ^ 31) % 2 ^ 32 - 2 ^ 31

/-- One step of the `routeColor` hash loop:
`hash = charCode + ((hash << 5) - hash)`. -/
def hashStep (h : Int) (code : ℕ) : Int := (code : Int) + (toInt32 (h * 32) - h)

/-- The string hash of `routeColor` (characters as code points; this agrees
with UTF-16 `charCodeAt` on the Basic Multilingual Plane, which covers every
route number). -/
def jsHash (s : String) : Int := s.data.foldl (fun h ch => hashStep h ch.toNat) 0

/-- JS `%` on integers: truncated remainder, keeping the dividend's sign. -/
def jsRem (a b : Int) : Int := if 0 ≤ a then a % b else -((-a) % b)

/-- JS array indexing `l[i]`: `undefined` — modelled as `none` — when `i` is
negative or past the end. -/
def jsIndex {α : Type _} (l : List α) (i : Int) : Option α :=
  if 0 ≤ i then l.get? i.toNat else none

/-- `routeColor(routeNum)`: numeric route numbers index the palette via JS
`%`; otherwise the 32-bit string hash is used with `Math.abs`. -/
def routeColor (routeNum : String) : Option String :=
  match jsParseInt routeNum with
  | some num => jsIndex COLORS (jsRem num (COLORS.length : Int))
  | none => jsIndex COLORS ((jsHash routeNum).natAbs % COLORS.length : ℕ)

/-- C10, counterexample: `routeColor "-1"` parses to the negative integer
`-1`; JS `%` keeps the sign, so the palette is indexed at `-1` and the lookup
is `undefined` (`none`), not a palette entry. -/
theorem c10_route_color_counterexample :
    jsParseInt "-1" = some (-1) ∧ routeColor "-1" = none := by
  constructor <;> rfl

/-- C10, amended.  `routeColor` returns a defined element of the 24-entry
palette for every string whose `parseInt` value is non-negative and for every
string that does not parse at all (the hash branch); equal inputs trivially
yield equal colors because the function is pure.  Strings parsing to a
negative integer — which no real route number does — are excluded: there the
lookup is `undefined` (see the counterexample). -/
theorem c10_route_color_in_palette (s : String)
    (h : jsParseInt s = none ∨ ∃ n, jsParseInt s = some n ∧ 0 ≤ n) :
    ∃ color, routeColor s = some color ∧ color ∈ COLORS := by
  have hlen : COLORS.length = 24 := by rfl
  rcases h with h | ⟨n, hn, hpos⟩
  · simp only [routeColor, h]
    have hidx : (jsHash s).natAbs % COLORS.length < COLORS.length := by
      rw [hlen]; omega
    rw [jsIndex, if_pos (by positivity)]
    rw [Int.toNat_natCast]
    rw [List.get?_eq_get hidx]
    exact ⟨_, rfl, List.get_mem _ _ _⟩
  · simp only [routeColor, hn]
    have hrem : jsRem n (COLORS.length : Int) = n % (COLORS.length : Int) := by
      rw [jsRem, if_pos hpos]
    have hmod0 : 0 ≤ n % (COLORS.length : Int) :=
      Int.emod_nonneg n (by rw [hlen]; norm_num)
    have hmodlt : n % (COLORS.length : Int) < (COLORS.length : Int) :=
      Int.emod_lt_of_pos n (by rw [hlen]; norm_num)
    rw [hrem, jsIndex, if_pos hmod0]
    have hidx : (n % (COLORS.length : Int)).toNat < COLORS.length := by
      omega
    rw [List.get?_eq_get hidx]
    exact ⟨_, rfl, List.get_mem _ _ _⟩

/-- Witness for C10 (amended) at the numeric route `"15"` and the
non-numeric route `"A"`. -/
theorem c10_route_color_in_palette_witness :
    ((jsParseInt "15" = none ∨ ∃ n, jsParseInt "15" = some n ∧ 0 ≤ n) ∧
      ∃ color, routeColor "15" = some color ∧ color ∈ COLORS) ∧
    ((jsParseInt "A" = none ∨ ∃ n, jsParseInt "A" = some n ∧ 0 ≤ n) ∧
      ∃ color, routeColor "A" = some color ∧ color ∈ COLORS) := by
  have h15 : jsParseInt "15" = none ∨ ∃ n, jsParseInt "15" = some n ∧ 0 ≤ n :=
    Or.inr ⟨15, by rfl, by norm_num⟩
  have hA : jsParseInt "A" = none ∨ ∃ n, jsParseInt "A" = some n ∧ 0 ≤ n :=
    Or.inl (by rfl)
  exact ⟨⟨h15, c10_route_color_in_palette "15" h15⟩,
    ⟨hA, c10_route_color_in_palette "A" hA⟩⟩

/-! ### Data model of ws-client.ts and api-client.ts -/

/-- Result of `Date.parse` on the `timestamp` field: `null` also covers the
falsy empty string (the code's `!ts` check), `invalid` models a `NaN` parse,
and `time` carries the epoch milliseconds of a valid parse. -/
inductive TsParse where
  | null : TsParse
  | invalid : TsParse
  | time (ms : Int) : TsParse

/-- The `prev_stop` object of `VehicleData`. -/
structure PrevStopRef where
  id : Int
  name : String

/-- One entry of `next_stops`. -/
structure NextStopRef where
  id : Int
  name : String
  eta_seconds : Option ℝ

/-- The `VehicleData` interface of ws-client.ts. -/
structure VehicleData where
  id : String
  board_num : String
  route : String
  route_id : Option Int
  lat : ℝ
  lon : ℝ
  speed : ℝ
  course : ℝ
  prev_stop : Option PrevStopRef
  next_stops : List NextStopRef
  progress : Option ℝ
  timestamp : TsParse
  signal_lost : Bool

/-- The `RouteInfo` interface of api-client.ts. -/
structure RouteInfo where
  id : Int
  number : String
  name : String
  color : String

/-- The `StopInfo` interface of api-client.ts. -/
structure StopInfo where
  id : Int
  name : String
  lat : ℝ
  lon : ℝ

/-! ### JS `Map` modelled as an association list (first entry with a key
wins on lookup; `set` replaces in place, else appends, as JS `Map.set`
preserves insertion order) -/

/-- Lookup in a JS `Map`. -/
def jsMapGet {κ β : Type _} [DecidableEq κ] : List (κ × β) → κ → Option β
  | [], _ => none
  | (k0, v0) :: rest, k => if k0 = k then some v0 else jsMapGet rest k

/-- `Map.set`: replace the entry in place when the key exists, else append. -/
def jsMapSet {κ β : Type _} [DecidableEq κ] : List (κ × β) → κ → β → List (κ × β)
  | [], k, v => [(k, v)]
  | (k0, v0) :: rest, k, v =>
    if k0 = k then (k0, v) :: rest else (k0, v0) :: jsMapSet rest k v

theorem jsMapGet_set {κ β : Type _} [DecidableEq κ] :
    ∀ (m : List (κ × β)) (k k2 : κ) (v : β),
      jsMapGet (jsMapSet m k v) k2 = if k = k2 then some v else jsMapGet m k2 := by
  intro m
  induction m with
  | nil =>
    intro k k2 v
    simp [jsMapGet, jsMapSet]
  | cons e rest ih =>
    intro k k2 v
    obtain ⟨k0, v0⟩ := e
    by_cases h0 : k0 = k
    · subst h0
      rw [jsMapSet, if_pos rfl]
      by_cases h2 : k0 = k2
      · subst h2
        simp [jsMapGet]
      · simp [jsMapGet, h2]
    · rw [jsMapSet, if_neg h0]
      by_cases h2 : k0 = k2
      · subst h2
        have hk : ¬ k = k0 := fun h => h0 h.symm
        simp [jsMapGet, hk]
      · simp only [jsMapGet, if_neg h2]
        exact ih k k2 v

/-! ### The reactive `Store` of state.ts

The `notify`/listener machinery performs no state mutation and is omitted;
each operation is the pure state transformer of the corresponding method. -/

/-- The `AppState` record of state.ts. -/
structure AppState where
  vehicles : List (String × VehicleData)
  routes : List RouteInfo
  stops : List StopInfo
  enabledRoutes : Finset String
  selectedStop : Option Int
  connected : Bool

/-- `Store.updateVehicles`: `for (v of vehicles) this.state.vehicles.set(v.id, v)`. -/
def updateVehicles (st : AppState) (vehicles : List VehicleData) : AppState :=
  { st with vehicles := vehicles.foldl (fun m v => jsMapSet m v.id v) st.vehicles }

/-- `Store.disableAllRoutes`: `this.state.enabledRoutes.clear()`. -/
def disableAllRoutes (st : AppState) : AppState :=
  { st with enabledRoutes := ∅ }

/-- `Store.getVisibleVehicles`: iterate the vehicles map in insertion order and
keep a vehicle when no filter is active (`enabledRoutes` empty) or its route is
enabled. -/
def getVisibleVehicles (st : AppState) : List VehicleData :=
  let hasFilter := 0 < st.enabledRoutes.card
  (st.vehicles.map Prod.snd).filter
    (fun v => !hasFilter || decide (v.route ∈ st.enabledRoutes))

/-- The last vehicle of the frame carrying a given id, if any (later entries
overwrite earlier ones in `updateVehicles`). -/
def lastMatch : List VehicleData → String → Option VehicleData
  | [], _ => none
  | v :: vs, k =>
    match lastMatch vs k with
    | some w => some w
    | none => if v.id = k then some v else none

theorem lastMatch_eq_none_iff :
    ∀ (vs : List VehicleData) (k : String),
      lastMatch vs k = none ↔ k ∉ vs.map (fun v => v.id) := by
  intro vs
  induction vs with
  | nil => intro k; simp [lastMatch]
  | cons v vs ih =>
    intro k
    rw [lastMatch]
    simp only [List.map_cons, List.mem_cons]
    cases hlv : lastMatch vs k with
    | some w =>
      have hmem : k ∈ vs.map (fun v => v.id) := by
        by_contra hk
        rw [← ih k] at hk
        rw [hk] at hlv
        cases hlv
      constructor
      · intro h
        exact Option.noConfusion h
      · intro h
        exact absurd hmem (fun hm => h (Or.inr hm))
    | none =>
      have hnot := (ih k).mp hlv
      by_cases hid : v.id = k
      · rw [if_pos hid]
        constructor
        · intro h
          exact Option.noConfusion h
        · intro h
          exact absurd (Or.inl hid.symm) h
      · rw [if_neg hid]
        constructor
        · intro _
          rintro (h | h)
          · exact hid h.symm
          · exact hnot h
        · intro _
          rfl

theorem foldl_set_lookup :
    ∀ (vs : List VehicleData) (m : List (String × VehicleData)) (k : String),
      jsMapGet (vs.foldl (fun m v => jsMapSet m v.id v) m) k =
        match lastMatch vs k with
        | some w => some w
        | none => jsMapGet m k := by
  intro vs
  induction vs with
  | nil => intro m k; rfl
  | cons v vs ih =>
    intro m k
    rw [List.foldl_cons, ih (jsMapSet m v.id v) k, lastMatch]
    cases hlv : lastMatch vs k with
    | some w => rfl
    | none =>
      simp only
      rw [jsMapGet_set]
      by_cases hid : v.id = k
      · rw [if_pos hid, if_pos hid]
      · rw [if_neg hid, if_neg hid]

/-- C8.  `updateVehicles` upserts exactly the frame's ids: a looked-up id maps
to the last frame vehicle with that id when one exists and is otherwise left
unchanged; entries are never removed (stored keys are monotone), and the empty
frame leaves the whole state identical. -/
theorem c8_update_vehicles_frame (st : AppState) (vs : List VehicleData) :
    (∀ k, jsMapGet (updateVehicles st vs).vehicles k =
      match lastMatch vs k with
      | some w => some w
      | none => jsMapGet st.vehicles k) ∧
    (∀ k, k ∉ vs.map (fun v => v.id) →
      jsMapGet (updateVehicles st vs).vehicles k = jsMapGet st.vehicles k) ∧
    (∀ k, (jsMapGet st.vehicles k).isSome = true →
      (jsMapGet (updateVehicles st vs).vehicles k).isSome = true) ∧
    updateVehicles st [] = st := by
  have hmain : ∀ k, jsMapGet (updateVehicles st vs).vehicles k =
      match lastMatch vs k with
      | some w => some w
      | none => jsMapGet st.vehicles k := by
    intro k
    exact foldl_set_lookup vs st.vehicles k
  refine ⟨hmain, ?_, ?_, rfl⟩
  · intro k hk
    rw [hmain k, (lastMatch_eq_none_iff vs k).mpr hk]
  · intro k hk
    rw [hmain k]
    cases hlv : lastMatch vs k with
    | some w => rfl
    | none => exact hk

/-- Witness for C8 at a concrete one-vehicle store and the empty frame. -/
theorem c8_update_vehicles_frame_witness :
    ("a" ∉ ([] : List VehicleData).map (fun v => v.id)) ∧
    (jsMapGet (updateVehicles
        ⟨[("a", ⟨"a", "001", "5", none, 0, 0, 0, 0, none, [], none, TsParse.null, false⟩)],
          [], [], ∅, none, false⟩ []).vehicles "a" =
      jsMapGet
        (⟨[("a", ⟨"a", "001", "5", none, 0, 0, 0, 0, none, [], none, TsParse.null, false⟩)],
          [], [], ∅, none, false⟩ : AppState).vehicles "a") ∧
    updateVehicles
        ⟨[("a", ⟨"a", "001", "5", none, 0, 0, 0, 0, none, [], none, TsParse.null, false⟩)],
          [], [], ∅, none, false⟩ [] =
      ⟨[("a", ⟨"a", "001", "5", none, 0, 0, 0, 0, none, [], none, TsParse.null, false⟩)],
        [], [], ∅, none, false⟩ := by
  have hk : "a" ∉ ([] : List VehicleData).map (fun v => v.id) := by simp
  have h := c8_update_vehicles_frame
    ⟨[("a", ⟨"a", "001", "5", none, 0, 0, 0, 0, none, [], none, TsParse.null, false⟩)],
      [], [], ∅, none, false⟩ []
  exact ⟨hk, h.2.1 "a" hk, h.2.2.2⟩

/-- C9.  `getVisibleVehicles` returns every stored vehicle when the route
filter is empty and exactly the vehicles on enabled routes otherwise; in
particular, after `disableAllRoutes` empties the filter, all vehicles are
returned rather than none. -/
theorem c9_visible_vehicles_filter (st : AppState) :
    (st.enabledRoutes = ∅ →
      getVisibleVehicles st = st.vehicles.map Prod.snd) ∧
    (st.enabledRoutes ≠ ∅ →
      getVisibleVehicles st =
        (st.vehicles.map Prod.snd).filter
          (fun v => decide (v.route ∈ st.enabledRoutes))) ∧
    getVisibleVehicles (disableAllRoutes st) = st.vehicles.map Prod.snd := by
  have hempty : ∀ (st2 : AppState), st2.enabledRoutes = ∅ →
      getVisibleVehicles st2 = st2.vehicles.map Prod.snd := by
    intro st2 h
    rw [getVisibleVehicles]
    simp [h]
  refine ⟨hempty st, ?_, hempty (disableAllRoutes st) rfl⟩
  · intro h
    rw [getVisibleVehicles]
    have hcard : 0 < st.enabledRoutes.card := Finset.card_pos.mpr
      (Finset.nonempty_iff_ne_empty.mpr h)
    simp [hcard]

/-- Witness for C9 at a concrete store with an empty and a non-empty filter. -/
theorem c9_visible_vehicles_filter_witness :
    ((⟨[], [], [], ∅, none, false⟩ : AppState).enabledRoutes = ∅ ∧
      getVisibleVehicles ⟨[], [], [], ∅, none, false⟩ =
        (⟨[], [], [], ∅, none, false⟩ : AppState).vehicles.map Prod.snd) ∧
    ((⟨[], [], [], {"5"}, none, false⟩ : AppState).enabledRoutes ≠ ∅ ∧
      getVisibleVehicles ⟨[], [], [], {"5"}, none, false⟩ =
        ((⟨[], [], [], {"5"}, none, false⟩ : AppState).vehicles.map Prod.snd).filter
          (fun v => decide (v.route ∈
            (⟨[], [], [], {"5"}, none, false⟩ : AppState).enabledRoutes))) ∧
    getVisibleVehicles (disableAllRoutes ⟨[], [], [], {"5"}, none, false⟩) =
      (⟨[], [], [], {"5"}, none, false⟩ : AppState).vehicles.map Prod.snd := by
  have h1 : (⟨[], [], [], ∅, none, false⟩ : AppState).enabledRoutes = ∅ := rfl
  have h2 : (⟨[], [], [], {"5"}, none, false⟩ : AppState).enabledRoutes ≠ ∅ := by
    decide
  exact ⟨⟨h1, (c9_visible_vehicles_filter _).1 h1⟩,
    ⟨h2, (c9_visible_vehicles_filter _).2.1 h2⟩,
    (c9_visible_vehicles_filter ⟨[], [], [], {"5"}, none, false⟩).2.2⟩

/-! ### The WebSocket subscription handler of main.ts

The closure variable `hasFreshVehicleUpdate` and the store are threaded
explicitly; `Date.now()` is the `now` parameter. -/

/-- The `SNAPSHOT_MAX_AGE_MS` constant of main.ts. -/
def SNAPSHOT_MAX_AGE_MS : Int := 20000

/-- `isFreshSnapshot(ts)`: false on a falsy or unparseable timestamp, else
`Date.now() - parsed <= SNAPSHOT_MAX_AGE_MS`. -/
def isFreshSnapshot (now : Int) : TsParse → Bool
  | TsParse.null => false
  | TsParse.invalid => false
  | TsParse.time p => decide (now - p ≤ SNAPSHOT_MAX_AGE_MS)

/-- Frame type of the `WsMessage` interface. -/
inductive MsgType where
  | snapshot : MsgType
  | update : MsgType
deriving DecidableEq

/-- The `WsMessage` interface of ws-client.ts. -/
structure WsMessage where
  type : MsgType
  vehicles : List VehicleData

/-- The `wsClient.subscribe` callback of main.ts, as a transformer of the
`hasFreshVehicleUpdate` flag and the store state. -/
def handleWsMessage (now : Int) (hasFresh : Bool) (st : AppState)
    (msg : WsMessage) : Bool × AppState :=
  match msg.type with
  | MsgType.update => (true, updateVehicles st msg.vehicles)
  | MsgType.snapshot =>
    if hasFresh then (hasFresh, updateVehicles st msg.vehicles)
    else
      let hasVehicles := !msg.vehicles.isEmpty
      let snapshotIsFresh := hasVehicles &&
        msg.vehicles.all (fun v => isFreshSnapshot now v.timestamp)
      if snapshotIsFresh then (hasFresh, updateVehicles st msg.vehicles)
      else (hasFresh, st)

/-- Fold the handler over a sequence of received frames. -/
def processFrames (now : Int) : Bool × AppState → List WsMessage → Bool × AppState
  | s, [] => s
  | s, m :: ms => processFrames now (handleWsMessage now s.1 s.2 m) ms

/-- C3.  Before any `update` frame: a `snapshot` frame is applied to the store
iff it is non-empty and every vehicle timestamp parses and is at most 20000 ms
old — otherwise the store is left unchanged — and the flag stays false over
any snapshot-only prefix.  After the first `update` frame (flag true), every
frame is applied unconditionally. -/
theorem c3_snapshot_freshness_gate (now : Int) (st : AppState)
    (vs : List VehicleData) :
    (handleWsMessage now false st ⟨MsgType.snapshot, vs⟩ =
      (false,
        if 0 < vs.length ∧ ∀ v ∈ vs, isFreshSnapshot now v.timestamp = true
        then updateVehicles st vs else st)) ∧
    (handleWsMessage now true st ⟨MsgType.snapshot, vs⟩ =
      (true, updateVehicles st vs)) ∧
    (∀ b, handleWsMessage now b st ⟨MsgType.update, vs⟩ =
      (true, updateVehicles st vs)) ∧
    (∀ frames : List WsMessage, (∀ m ∈ frames, m.type = MsgType.snapshot) →
      (processFrames now (false, st) frames).1 = false) := by
  have hfst : ∀ (st2 : AppState) (m : WsMessage), m.type = MsgType.snapshot →
      (handleWsMessage now false st2 m).1 = false := by
    intro st2 m hm
    obtain ⟨ty, mvs⟩ := m
    cases hm
    simp only [handleWsMessage]
    split
    · simp_all
    · split <;> rfl
  refine ⟨?_, rfl, fun b => rfl, ?_⟩
  · have hnotfresh : ¬ ((false : Bool) = true) := by simp
    simp only [handleWsMessage, if_neg hnotfresh]
    by_cases hcond : 0 < vs.length ∧ ∀ v ∈ vs, isFreshSnapshot now v.timestamp = true
    · rw [if_pos hcond]
      have hempty : vs.isEmpty = false := by
        cases vs with
        | nil => simp at hcond
        | cons a l => rfl
      have hbool : (!vs.isEmpty &&
          vs.all (fun v => isFreshSnapshot now v.timestamp)) = true := by
        rw [Bool.and_eq_true, Bool.not_eq_true', List.all_eq_true]
        exact ⟨hempty, hcond.2⟩
      rw [if_pos hbool]
    · rw [if_neg hcond]
      have hbool : (!vs.isEmpty &&
          vs.all (fun v => isFreshSnapshot now v.timestamp)) = false := by
        by_cases hne : vs = []
        · subst hne
          rfl
        · cases hall : vs.all (fun v => isFreshSnapshot now v.timestamp) with
          | false => simp
          | true =>
            rw [List.all_eq_true] at hall
            have hpos : 0 < vs.length := by
              cases vs with
              | nil => exact absurd rfl hne
              | cons a l => simp
            exact absurd ⟨hpos, hall⟩ hcond
      rw [if_neg (by rw [hbool]; simp)]
  · intro frames
    induction frames generalizing st with
    | nil => intro _; rfl
    | cons m ms ih =>
      intro hall
      have hm : m.type = MsgType.snapshot := hall m (by simp)
      rw [processFrames]
      have hpair : handleWsMessage now false st m =
          (false, (handleWsMessage now false st m).2) := by
        have h1 := hfst st m hm
        exact Prod.ext h1 rfl
      rw [hpair]
      exact ih (handleWsMessage now false st m).2 (fun m2 hm2 => hall m2 (by simp [hm2]))

/-- Witness for C3: a fresh one-vehicle snapshot at `now = 0`, a stale frame
check, and a snapshot-only prefix keeping the flag false. -/
theorem c3_snapshot_freshness_gate_witness :
    (handleWsMessage 0 false ⟨[], [], [], ∅, none, false⟩
        ⟨MsgType.snapshot,
          [⟨"a", "001", "5", none, 0, 0, 0, 0, none, [], none, TsParse.time 0, false⟩]⟩ =
      (false,
        if 0 < ([⟨"a", "001", "5", none, 0, 0, 0, 0, none, [], none, TsParse.time 0, false⟩] :
              List VehicleData).length ∧
            ∀ v ∈ ([⟨"a", "001", "5", none, 0, 0, 0, 0, none, [], none, TsParse.time 0, false⟩] :
              List VehicleData), isFreshSnapshot 0 v.timestamp = true
        then updateVehicles ⟨[], [], [], ∅, none, false⟩
          [⟨"a", "001", "5", none, 0, 0, 0, 0, none, [], none, TsParse.time 0, false⟩]
        else ⟨[], [], [], ∅, none, false⟩)) ∧
    ((∀ m ∈ [(⟨MsgType.snapshot, []⟩ : WsMessage)], m.type = MsgType.snapshot) ∧
      (processFrames 0 (false, ⟨[], [], [], ∅, none, false⟩)
        [⟨MsgType.snapshot, []⟩]).1 = false) := by
  have hall : ∀ m ∈ [(⟨MsgType.snapshot, []⟩ : WsMessage)],
      m.type = MsgType.snapshot := by
    intro m hm
    simp only [List.mem_singleton] at hm
    rw [hm]
  have h := c3_snapshot_freshness_gate 0 ⟨[], [], [], ∅, none, false⟩
    [⟨"a", "001", "5", none, 0, 0, 0, 0, none, [], none, TsParse.time 0, false⟩]
  exact ⟨h.1, hall, h.2.2.2 [⟨MsgType.snapshot, []⟩] hall⟩

/-! ### The WebSocket client of ws-client.ts (claim C7)

Every operation the client performs on the browser WebSocket API is recorded
as a `SocketOp`; `send` is part of that API surface but, as the claim states,
never invoked.  Listener dispatch, logging and `onStatusChange` touch no
socket.  `connect` is triggered both by the public method and by the
reconnect timer scheduled in `onclose`. -/

/-- Operations on the browser WebSocket / timer API. -/
inductive SocketOp where
  | create : SocketOp
  | setBinaryType : SocketOp
  | close : SocketOp
  | send : SocketOp
  | setReconnectTimer : SocketOp
  | clearReconnectTimer : SocketOp
deriving DecidableEq

/-- Client state: whether `this.ws` is non-null and whether
`this.reconnectTimeout` is set. -/
structure WsClientState where
  wsSet : Bool
  timerSet : Bool

/-- Events a `WsClient` can react to. -/
inductive WsEvent where
  | connect : WsEvent
  | onOpen : WsEvent
  | onMessage : WsEvent
  | onClose : WsEvent
  | onError : WsEvent
  | disconnect : WsEvent
  | reconnectTimerFire : WsEvent

/-- One step of the client: the new state and the socket operations invoked,
read off the handlers of ws-client.ts. -/
def wsStep (s : WsClientState) : WsEvent → WsClientState × List SocketOp
  | WsEvent.connect =>
    if s.wsSet then (s, [])
    else ({ s with wsSet := true }, [SocketOp.create, SocketOp.setBinaryType])
  | WsEvent.onOpen => (s, [])
  | WsEvent.onMessage => (s, [])
  | WsEvent.onClose =>
    ({ s with wsSet := false, timerSet := true }, [SocketOp.setReconnectTimer])
  | WsEvent.onError => (s, if s.wsSet then [SocketOp.close] else [])
  | WsEvent.disconnect =>
    ({ wsSet := false, timerSet := false },
      (if s.timerSet then [SocketOp.clearReconnectTimer] else []) ++
        (if s.wsSet then [SocketOp.close] else []))
  | WsEvent.reconnectTimerFire =>
    if s.wsSet then ({ s with timerSet := false }, [])
    else ({ wsSet := true, timerSet := false },
      [SocketOp.create, SocketOp.setBinaryType])

/-- Run the client over a sequence of events, accumulating socket operations. -/
def wsRun : WsClientState → List WsEvent → WsClientState × List SocketOp
  | s, [] => (s, [])
  | s, e :: es =>
    let r := wsStep s e
    let rest := wsRun r.1 es
    (rest.1, r.2 ++ rest.2)

theorem wsStep_no_send (s : WsClientState) (e : WsEvent) :
    (wsStep s e).2.contains SocketOp.send = false := by
  cases e <;> simp only [wsStep] <;>
    first
      | (split <;> simp [List.contains_eq_any_beq])
      | simp [List.contains_eq_any_beq]

/-- C7.  The WebSocket client never sends: over every event sequence from
every starting state, `send` is not among the socket operations it performs —
the channel is read-only from the client's side. -/
theorem c7_ws_client_never_sends (s : WsClientState) (events : List WsEvent) :
    (wsRun s events).2.contains SocketOp.send = false := by
  induction events generalizing s with
  | nil => rfl
  | cons e es ih =>
    rw [wsRun]
    simp only [List.contains_eq_any_beq, List.any_append] at *
    rw [Bool.or_eq_false_iff]
    constructor
    · have h := wsStep_no_send s e
      rw [List.contains_eq_any_beq] at h
      exact h
    · exact ih (wsStep s e).1

/-! ### `VehicleLayer.update` (route-layer.ts lines 200-349 of the embedded
vehicle-layer module, claim C6)

Leaflet markers are opaque handles (`ℕ`), allocated from a counter when
`L.marker` is called; `setLatLng`, `setIcon`, popup and DOM updates mutate
external Leaflet state and are not part of the store being verified.  The JS
`Set` `seen` is modelled by its membership list, the `tracked` map and the
route-geometry map as association lists. -/

/-- The `TrackedVehicle` record of route-layer.ts. -/
structure TrackedVehicle where
  marker : ℕ
  route : String
  routeId : Option Int
  signalLost : Bool
  prevProgress : Option ℝ
  targetProgress : Option ℝ
  prevLat : ℝ
  prevLon : ℝ
  prevCourse : ℝ
  targetLat : ℝ
  targetLon : ℝ
  targetCourse : ℝ
  targetSpeed : ℝ
  targetHasServerProgress : Bool
  updateTime : ℝ
  currentLat : ℝ
  currentLon : ℝ
  currentCourse : ℝ
  currentProgress : Option ℝ

/-- `v.route_id != null ? this.routeGeometries.get(v.route_id) : undefined`. -/
def getGeom (geoms : List (Int × RouteGeometry)) : Option Int → Option RouteGeometry
  | none => none
  | some rid => jsMapGet geoms rid

/-- The existing-vehicle branch of `VehicleLayer.update`: snap `prev*` to the
currently rendered values, re-anchor on a route change, teleport on a progress
jump beyond `MAX_ANIM_PROGRESS_DELTA = 0.05`, then store the new targets and
refresh route/signal state.  The marker handle is never reassigned. -/
noncomputable def mutateExisting (geoms : List (Int × RouteGeometry)) (now : ℝ)
    (v : VehicleData) (tv : TrackedVehicle) : TrackedVehicle :=
  let geom := getGeom geoms v.route_id
  let routeChanged : Bool := tv.routeId != v.route_id
  let tv1 := { tv with prevLat := tv.currentLat, prevLon := tv.currentLon,
                       prevCourse := tv.currentCourse, prevProgress := tv.currentProgress }
  let tv2 :=
    if routeChanged then
      match geom, v.progress with
      | some g, some pr =>
        let p := pointAtProgress g pr
        let cb := bearingAtProgress g pr
        { tv1 with prevLat := p.1, prevLon := p.2, prevCourse := cb,
                   prevProgress := some pr, currentLat := p.1, currentLon := p.2,
                   currentCourse := cb, currentProgress := some pr }
      | _, _ =>
        { tv1 with prevLat := v.lat, prevLon := v.lon, prevCourse := v.course,
                   prevProgress := v.progress, currentLat := v.lat,
                   currentLon := v.lon, currentCourse := v.course,
                   currentProgress := v.progress }
    else tv1
  let tv3 :=
    match routeChanged, tv2.prevProgress, v.progress with
    | false, some pp, some vp =>
      if 0.05 < |vp - pp| then
        let snap :=
          match geom with
          | some g => (pointAtProgress g vp, bearingAtProgress g vp)
          | none => ((v.lat, v.lon), v.course)
        { tv2 with prevProgress := some vp, prevLat := snap.1.1, prevLon := snap.1.2,
                   prevCourse := snap.2, currentProgress := some vp,
                   currentLat := snap.1.1, currentLon := snap.1.2,
                   currentCourse := snap.2 }
      else tv2
    | _, _, _ => tv2
  let targetProgress :=
    if geom.isSome && v.progress.isNone && tv3.currentProgress.isSome then
      tv3.currentProgress
    else v.progress
  let tv4 := { tv3 with targetLat := v.lat, targetLon := v.lon,
                        targetCourse := v.course, targetSpeed := v.speed,
                        targetProgress := targetProgress,
                        targetHasServerProgress := v.progress.isSome,
                        routeId := v.route_id, updateTime := now }
  if tv4.route != v.route || tv4.signalLost != v.signal_lost then
    { tv4 with route := v.route, signalLost := v.signal_lost }
  else tv4

/-- The new-vehicle branch of `VehicleLayer.update`: initial position either
snapped to the route (geometry and progress present) or raw, and a freshly
allocated marker. -/
noncomputable def newTracked (geoms : List (Int × RouteGeometry)) (now : ℝ)
    (marker : ℕ) (v : VehicleData) : TrackedVehicle :=
  let geom := getGeom geoms v.route_id
  let init :=
    match geom, v.progress with
    | some g, some pr => (pointAtProgress g pr, bearingAtProgress g pr)
    | _, _ => ((v.lat, v.lon), v.course)
  { marker := marker, route := v.route, routeId := v.route_id,
    signalLost := v.signal_lost, prevProgress := v.progress,
    targetProgress := v.progress, prevLat := init.1.1, prevLon := init.1.2,
    prevCourse := init.2, targetLat := v.lat, targetLon := v.lon,
    targetCourse := v.course, targetSpeed := v.speed,
    targetHasServerProgress := v.progress.isSome, updateTime := now,
    currentLat := init.1.1, currentLon := init.1.2, currentCourse := init.2,
    currentProgress := v.progress }

/-- The body of the `for (const v of vehicles)` loop, threading the tracked
map, the `seen` set and the marker allocator. -/
noncomputable def updStep (geoms : List (Int × RouteGeometry)) (now : ℝ)
    (acc : List (String × TrackedVehicle) × List String × ℕ) (v : VehicleData) :
    List (String × TrackedVehicle) × List String × ℕ :=
  let seen2 := v.id :: acc.2.1
  match jsMapGet acc.1 v.id with
  | some tv => (jsMapSet acc.1 v.id (mutateExisting geoms now v tv), seen2, acc.2.2)
  | none => (jsMapSet acc.1 v.id (newTracked geoms now acc.2.2 v), seen2, acc.2.2 + 1)

/-- `VehicleLayer.update(vehicles)`: process each vehicle, then remove every
tracked entry whose id was not seen.  Returns the new tracked map and marker
counter. -/
noncomputable def vehicleLayerUpdate (geoms : List (Int × RouteGeometry)) (now : ℝ)
    (tracked : List (String × TrackedVehicle)) (nextMarker : ℕ)
    (vehicles : List VehicleData) : List (String × TrackedVehicle) × ℕ :=
  let r := vehicles.foldl (updStep geoms now) (tracked, [], nextMarker)
  ((r.1).filter (fun e => r.2.1.contains e.1), r.2.2)

theorem mutateExisting_marker (geoms : List (Int × RouteGeometry)) (now : ℝ)
    (v : VehicleData) (tv : TrackedVehicle) :
    (mutateExisting geoms now v tv).marker = tv.marker := by
  unfold mutateExisting
  dsimp only
  repeat first
    | rfl
    | split

theorem updStep_seen (geoms : List (Int × RouteGeometry)) (now : ℝ)
    (acc : List (String × TrackedVehicle) × List String × ℕ) (v : VehicleData) :
    (updStep geoms now acc v).2.1 = v.id :: acc.2.1 := by
  unfold updStep
  cases jsMapGet acc.1 v.id <;> rfl

theorem updStep_fst (geoms : List (Int × RouteGeometry)) (now : ℝ)
    (acc : List (String × TrackedVehicle) × List String × ℕ) (v : VehicleData) :
    ∃ w, (updStep geoms now acc v).1 = jsMapSet acc.1 v.id w := by
  unfold updStep
  cases jsMapGet acc.1 v.id with
  | none => exact ⟨_, rfl⟩
  | some tv => exact ⟨_, rfl⟩

theorem foldl_updStep_seen (geoms : List (Int × RouteGeometry)) (now : ℝ) :
    ∀ (vs : List VehicleData) (acc : List (String × TrackedVehicle) × List String × ℕ)
      (x : String),
      x ∈ (vs.foldl (updStep geoms now) acc).2.1 ↔
        x ∈ acc.2.1 ∨ x ∈ vs.map (fun v => v.id) := by
  intro vs
  induction vs with
  | nil => intro acc x; simp
  | cons v vs ih =>
    intro acc x
    rw [List.foldl_cons, ih (updStep geoms now acc v) x, updStep_seen]
    simp only [List.mem_cons, List.map_cons]
    constructor
    · rintro ((h | h) | h)
      · exact Or.inr (Or.inl h)
      · exact Or.inl h
      · exact Or.inr (Or.inr h)
    · rintro (h | h | h)
      · exact Or.inl (Or.inr h)
      · exact Or.inl (Or.inl h)
      · exact Or.inr h

theorem foldl_updStep_isSome (geoms : List (Int × RouteGeometry)) (now : ℝ) :
    ∀ (vs : List VehicleData) (acc : List (String × TrackedVehicle) × List String × ℕ)
      (id : String),
      (jsMapGet (vs.foldl (updStep geoms now) acc).1 id).isSome = true ↔
        (jsMapGet acc.1 id).isSome = true ∨ id ∈ vs.map (fun v => v.id) := by
  intro vs
  induction vs with
  | nil => intro acc id; simp
  | cons v vs ih =>
    intro acc id
    rw [List.foldl_cons, ih (updStep geoms now acc v) id]
    obtain ⟨w, hw⟩ := updStep_fst geoms now acc v
    rw [hw, jsMapGet_set]
    simp only [List.map_cons, List.mem_cons]
    by_cases hid : v.id = id
    · rw [if_pos hid]
      simp [hid]
    · rw [if_neg hid]
      constructor
      · rintro (h | h)
        · exact Or.inl h
        · exact Or.inr (Or.inr h)
      · rintro (h | h | h)
        · exact Or.inl h
        · exact absurd h.symm hid
        · exact Or.inr h

theorem foldl_updStep_marker (geoms : List (Int × RouteGeometry)) (now : ℝ) :
    ∀ (vs : List VehicleData) (acc : List (String × TrackedVehicle) × List String × ℕ)
      (id : String) (tv : TrackedVehicle),
      jsMapGet acc.1 id = some tv →
      ∃ tv2, jsMapGet (vs.foldl (updStep geoms now) acc).1 id = some tv2 ∧
        tv2.marker = tv.marker := by
  intro vs
  induction vs with
  | nil => intro acc id tv h; exact ⟨tv, h, rfl⟩
  | cons v vs ih =>
    intro acc id tv h
    rw [List.foldl_cons]
    by_cases hid : v.id = id
    · subst hid
      rw [show updStep geoms now acc v =
          (jsMapSet acc.1 v.id (mutateExisting geoms now v tv), v.id :: acc.2.1, acc.2.2)
        from by rw [updStep]; rw [h]]
      have hget : jsMapGet (jsMapSet acc.1 v.id (mutateExisting geoms now v tv)) v.id =
          some (mutateExisting geoms now v tv) := by
        rw [jsMapGet_set, if_pos rfl]
      obtain ⟨tv2, h2, hm2⟩ := ih
        (jsMapSet acc.1 v.id (mutateExisting geoms now v tv), v.id :: acc.2.1, acc.2.2)
        v.id (mutateExisting geoms now v tv) hget
      exact ⟨tv2, h2, by rw [hm2, mutateExisting_marker]⟩
    · obtain ⟨w, hw⟩ := updStep_fst geoms now acc v
      have hget : jsMapGet (updStep geoms now acc v).1 id = some tv := by
        rw [hw, jsMapGet_set, if_neg hid]
        exact h
      exact ih _ id tv hget

theorem jsMapGet_filter_key {β : Type _} (p : String → Bool) :
    ∀ (m : List (String × β)) (k : String),
      jsMapGet (m.filter (fun e => p e.1)) k =
        if p k then jsMapGet m k else none := by
  intro m
  induction m with
  | nil =>
    intro k
    simp only [List.filter_nil, jsMapGet]
    split <;> rfl
  | cons e rest ih =>
    intro k
    obtain ⟨k0, v0⟩ := e
    by_cases hp : p k0
    · rw [List.filter_cons_of_pos (by simpa using hp)]
      by_cases hk : k0 = k
      · subst hk
        rw [jsMapGet, if_pos rfl, if_pos hp, jsMapGet, if_pos rfl]
      · rw [jsMapGet, if_neg hk, ih k, jsMapGet, if_neg hk]
    · rw [List.filter_cons_of_neg (by simpa using hp)]
      by_cases hk : k0 = k
      · subst hk
        rw [ih k0, if_neg hp]
        rw [if_neg hp]
      · rw [ih k, jsMapGet, if_neg hk]

/-- C6.  After `VehicleLayer.update(vehicles)` the tracked ids are exactly the
ids occurring in the frame: entries for absent ids are removed, entries for
present ids exist, and an id already tracked before the call keeps its marker
handle. -/
theorem c6_vehicle_layer_update_tracked (geoms : List (Int × RouteGeometry))
    (now : ℝ) (tracked : List (String × TrackedVehicle)) (ctr : ℕ)
    (vs : List VehicleData) :
    (∀ id : String,
      (jsMapGet (vehicleLayerUpdate geoms now tracked ctr vs).1 id).isSome = true ↔
        id ∈ vs.map (fun v => v.id)) ∧
    (∀ (id : String) (tv : TrackedVehicle),
      jsMapGet tracked id = some tv → id ∈ vs.map (fun v => v.id) →
      ∃ tv2, jsMapGet (vehicleLayerUpdate geoms now tracked ctr vs).1 id = some tv2 ∧
        tv2.marker = tv.marker) := by
  have hseen : ∀ id : String,
      ((vs.foldl (updStep geoms now) (tracked, [], ctr)).2.1).contains id = true ↔
        id ∈ vs.map (fun v => v.id) := by
    intro id
    rw [List.elem_iff]
    rw [foldl_updStep_seen]
    simp
  constructor
  · intro id
    rw [vehicleLayerUpdate]
    simp only
    rw [jsMapGet_filter_key]
    by_cases hm : id ∈ vs.map (fun v => v.id)
    · rw [if_pos ((hseen id).mpr hm)]
      rw [foldl_updStep_isSome]
      simp [hm]
    · rw [if_neg (fun hc => hm ((hseen id).mp hc))]
      simp [hm]
  · intro id tv htv hm
    rw [vehicleLayerUpdate]
    simp only
    rw [jsMapGet_filter_key, if_pos ((hseen id).mpr hm)]
    exact foldl_updStep_marker geoms now vs (tracked, [], ctr) id tv htv

/-- Witness for C6: one tracked vehicle re-observed in the frame keeps its
marker, and the frame's id set is exactly the tracked set afterwards. -/
theorem c6_vehicle_layer_update_tracked_witness :
    (jsMapGet [("a", (⟨7, "5", none, false, none, none, 0, 0, 0, 0, 0, 0, 0,
        false, 0, 0, 0, 0, none⟩ : TrackedVehicle))] "a" =
      some ⟨7, "5", none, false, none, none, 0, 0, 0, 0, 0, 0, 0,
        false, 0, 0, 0, 0, none⟩) ∧
    ("a" ∈ ([⟨"a", "001", "5", none, 0, 0, 0, 0, none, [], none, TsParse.null, false⟩] :
      List VehicleData).map (fun v => v.id)) ∧
    (∃ tv2, jsMapGet (vehicleLayerUpdate [] 0
        [("a", ⟨7, "5", none, false, none, none, 0, 0, 0, 0, 0, 0, 0,
          false, 0, 0, 0, 0, none⟩)] 1
        [⟨"a", "001", "5", none, 0, 0, 0, 0, none, [], none, TsParse.null, false⟩]).1 "a" =
        some tv2 ∧ tv2.marker = 7) := by
  have h1 : jsMapGet [("a", (⟨7, "5", none, false, none, none, 0, 0, 0, 0, 0, 0, 0,
      false, 0, 0, 0, 0, none⟩ : TrackedVehicle))] "a" =
      some ⟨7, "5", none, false, none, none, 0, 0, 0, 0, 0, 0, 0,
        false, 0, 0, 0, 0, none⟩ := by
    rw [jsMapGet, if_pos rfl]
  have h2 : "a" ∈ ([⟨"a", "001", "5", none, 0, 0, 0, 0, none, [], none, TsParse.null,
      false⟩] : List VehicleData).map (fun v => v.id) := by
    simp
  have h := (c6_vehicle_layer_update_tracked [] 0
    [("a", ⟨7, "5", none, false, none, none, 0, 0, 0, 0, 0, 0, 0,
      false, 0, 0, 0, 0, none⟩)] 1
    [⟨"a", "001", "5", none, 0, 0, 0, 0, none, [], none, TsParse.null, false⟩]).2
    "a" _ h1 h2
  exact ⟨h1, h2, h⟩

end Tram
